import Mathlib

/-!
Verification of the retry/timeout dispatch loop of
`bigchaindb_driver/transport.py` (`Transport.forward_request`).

The loop is embedded shallowly.  One call to `forward_request` is driven by
a finite *script*: the ordered sequence of outcomes the selected connections
would produce, one entry per attempt, each together with the wall-clock time
the attempt consumed (`elapsed = time() - start` in the source).  The loop of
the source is then a structurally recursive function over the script:

  while timeout is None or timeout > 0:
      connection = self.connection_pool.get_connection()
      start = time()
      try:
          response = connection.request(..., timeout=timeout)
      except ConnectionError as err:
          error_trace.append(err)
          continue
      else:
          return response.data
      finally:
          elapsed = time() - start
          if timeout is not None:
              timeout -= elapsed
  raise TimeoutError(error_trace)

The `finally` clause runs on every path (the `continue`, the `return`, and a
propagating non-ConnectionError exception alike), so the budget decrement is
unconditional; the embedding reflects this.  Time is modelled with `ℤ` (a
fixed integral unit, e.g. microseconds: only addition, subtraction and order
comparison of times occur in the source, so the semantics is unchanged and
every definition evaluates by kernel reduction).
The result record also exposes, for each attempt, the `timeout=` argument the
source passes to `connection.request` (`calls`), and the final value of the
local `timeout` variable (`remaining`), so that the budget-accounting claims
are statable.
-/

/-- Outcome of a single `connection.request` attempt, as classified by the
source's `try/except ConnectionError/else` branches: a `requests` ConnectionError
(retryable), a successful response carrying `response.data`, or any other
exception (propagated). Payloads are abstracted to naturals. -/
inductive Outcome where
  | connFailure (err : ℕ)
  | success (data : ℕ)
  | otherError (err : ℕ)
deriving DecidableEq, Repr

/-- One scripted attempt: the outcome the selected connection produces and the
wall-clock time the attempt consumed (`time() - start`). -/
structure Attempt where
  outcome : Outcome
  elapsed : ℤ
deriving DecidableEq, Repr

/-- How one call to `forward_request` ends: `returned` models `return
response.data`; `timedOut` models `raise TimeoutError(error_trace)`; `raised`
models a non-ConnectionError exception propagating; `outOfScript` means the
finite script was exhausted while the loop would still continue (the oracle
ran out, not a behaviour of the source). -/
inductive FinalOutcome where
  | returned (data : ℕ)
  | timedOut (trace : List ℕ)
  | raised (err : ℕ)
  | outOfScript (trace : List ℕ)
deriving DecidableEq, Repr

/-- Observables of one `forward_request` call: how it ended, how many attempts
(`connection.request` calls) were made, the `timeout=` argument passed at each
attempt in order, and the final value of the local `timeout` variable. -/
structure RunResult where
  outcome : FinalOutcome
  attempts : ℕ
  calls : List (Option ℤ)
  remaining : Option ℤ
deriving DecidableEq, Repr

/-- The loop guard `timeout is None or timeout > 0` of the source. -/
def budgetActive : Option ℤ → Bool
  | none => true
  | some v => decide (0 < v)

/-- The `finally` clause: `if timeout is not None: timeout -= elapsed`. -/
def decr : Option ℤ → ℤ → Option ℤ
  | none, _ => none
  | some v, e => some (v - e)

/-- The `while` loop of `forward_request`, recursing on the script.  The guard
is checked before every attempt; a `ConnectionError` appends to `error_trace`
and continues (with the budget decremented by the `finally`); a success returns
`response.data`; any other exception propagates; an exhausted guard raises
`TimeoutError(error_trace)`.  `trace`, `k` and `calls` accumulate the
`error_trace` list, the attempt count and the `timeout=` arguments passed. -/
def loop : List Attempt → Option ℤ → List ℕ → ℕ → List (Option ℤ) → RunResult
  | [], t, trace, k, calls =>
      if budgetActive t then ⟨FinalOutcome.outOfScript trace, k, calls, t⟩
      else ⟨FinalOutcome.timedOut trace, k, calls, t⟩
  | a :: rest, t, trace, k, calls =>
      if budgetActive t then
        match a.outcome with
        | Outcome.connFailure e =>
            loop rest (decr t a.elapsed) (trace ++ [e]) (k + 1) (calls ++ [t])
        | Outcome.success d =>
            ⟨FinalOutcome.returned d, k + 1, calls ++ [t], decr t a.elapsed⟩
        | Outcome.otherError e =>
            ⟨FinalOutcome.raised e, k + 1, calls ++ [t], decr t a.elapsed⟩
      else ⟨FinalOutcome.timedOut trace, k, calls, t⟩

/-- `forward_request`: `error_trace = []`, `timeout = self.timeout`, then the
loop. -/
def forwardRequest (t : Option ℤ) (script : List Attempt) : RunResult :=
  loop script t [] 0 []

/-- Whether an outcome is a `ConnectionError` (the retryable class). -/
def isConnFailure : Outcome → Bool
  | Outcome.connFailure _ => true
  | _ => false

/-- The error payload of a connection failure, if any. -/
def errOf : Outcome → Option ℕ
  | Outcome.connFailure e => some e
  | _ => none

/-- The ordered list of connection-failure payloads of a script segment. -/
def errs (l : List Attempt) : List ℕ := l.filterMap (fun a => errOf a.outcome)

/-- Total elapsed time of a script segment. -/
def sumElapsed (l : List Attempt) : ℤ := (l.map Attempt.elapsed).sum

/-- The budget remains active at every guard check while a given segment of
connection failures is consumed: after `i` of its attempts, for every
`i ≤ pre.length`, the decremented budget still passes the loop guard. -/
def activeThrough (t : Option ℤ) (pre : List Attempt) : Prop :=
  ∀ i ∈ List.range (pre.length + 1),
    budgetActive (decr t (sumElapsed (pre.take i))) = true

instance (t : Option ℤ) (pre : List Attempt) : Decidable (activeThrough t pre) :=
  List.decidableBAll _ _

/-- The sequence of `timeout=` arguments the loop passes while consuming a
segment: the running budget at the start of each attempt. -/
def callPlan (t : Option ℤ) : List Attempt → List (Option ℤ)
  | [] => []
  | a :: rest => t :: callPlan (decr t a.elapsed) rest

-- Basic lemmas about the embedding.

theorem decr_decr (t : Option ℤ) (a b : ℤ) : decr (decr t a) b = decr t (a + b) := by
  cases t with
  | none => rfl
  | some v => simp [decr, sub_sub]

theorem decr_zero (t : Option ℤ) : decr t 0 = t := by
  cases t with
  | none => rfl
  | some v => simp [decr]

theorem sumElapsed_nil : sumElapsed [] = 0 := rfl

theorem sumElapsed_cons (a : Attempt) (l : List Attempt) :
    sumElapsed (a :: l) = a.elapsed + sumElapsed l := by
  simp [sumElapsed]

theorem errs_nil : errs [] = [] := rfl

theorem errs_cons (a : Attempt) (l : List Attempt) :
    errs (a :: l) = (errOf a.outcome).toList ++ errs l := by
  cases h : a.outcome <;> simp [errs, errOf, h, List.filterMap_cons]

theorem loop_not_active {t : Option ℤ} (h : budgetActive t = false)
    (script : List Attempt) (trace : List ℕ) (k : ℕ) (calls : List (Option ℤ)) :
    loop script t trace k calls = ⟨FinalOutcome.timedOut trace, k, calls, t⟩ := by
  cases script <;> simp [loop, h]

theorem loop_nil_active {t : Option ℤ} (h : budgetActive t = true)
    (trace : List ℕ) (k : ℕ) (calls : List (Option ℤ)) :
    loop [] t trace k calls = ⟨FinalOutcome.outOfScript trace, k, calls, t⟩ := by
  simp [loop, h]

theorem loop_conn {t : Option ℤ} (h : budgetActive t = true)
    (e : ℕ) (el : ℤ) (rest : List Attempt) (trace : List ℕ) (k : ℕ)
    (calls : List (Option ℤ)) :
    loop (⟨Outcome.connFailure e, el⟩ :: rest) t trace k calls =
      loop rest (decr t el) (trace ++ [e]) (k + 1) (calls ++ [t]) := by
  simp [loop, h]

theorem loop_success {t : Option ℤ} (h : budgetActive t = true)
    (d : ℕ) (el : ℤ) (rest : List Attempt) (trace : List ℕ) (k : ℕ)
    (calls : List (Option ℤ)) :
    loop (⟨Outcome.success d, el⟩ :: rest) t trace k calls =
      ⟨FinalOutcome.returned d, k + 1, calls ++ [t], decr t el⟩ := by
  simp [loop, h]

theorem loop_other {t : Option ℤ} (h : budgetActive t = true)
    (e : ℕ) (el : ℤ) (rest : List Attempt) (trace : List ℕ) (k : ℕ)
    (calls : List (Option ℤ)) :
    loop (⟨Outcome.otherError e, el⟩ :: rest) t trace k calls =
      ⟨FinalOutcome.raised e, k + 1, calls ++ [t], decr t el⟩ := by
  simp [loop, h]

theorem budgetActive_some (v : ℤ) : budgetActive (some v) = true ↔ 0 < v := by
  simp [budgetActive]

theorem budgetActive_some_false (v : ℤ) : budgetActive (some v) = false ↔ v ≤ 0 := by
  simp [budgetActive]

theorem budgetActive_none : budgetActive none = true := rfl

theorem activeThrough_head {t : Option ℤ} {a : Attempt} {pre : List Attempt}
    (h : activeThrough t (a :: pre)) : budgetActive t = true := by
  have h0 := h 0 (by simp)
  simpa [decr_zero, sumElapsed_nil] using h0

theorem activeThrough_tail {t : Option ℤ} {a : Attempt} {pre : List Attempt}
    (h : activeThrough t (a :: pre)) : activeThrough (decr t a.elapsed) pre := by
  intro i hi
  have hi1 : i + 1 ∈ List.range ((a :: pre).length + 1) := by
    simp only [List.mem_range] at hi ⊢
    simp only [List.length_cons]
    omega
  have hstep := h (i + 1) hi1
  simpa [List.take_succ_cons, sumElapsed_cons, decr_decr] using hstep

theorem activeThrough_last {t : Option ℤ} {pre : List Attempt}
    (h : activeThrough t pre) : budgetActive (decr t (sumElapsed pre)) = true := by
  have hl := h pre.length (by simp)
  simpa using hl

theorem activeThrough_none (pre : List Attempt) : activeThrough none pre := by
  intro i hi
  simp [decr, budgetActive]

/-- Consuming a run of connection failures: while the budget stays active, each
ConnectionError appends its payload to the trace and the loop goes on, the
budget decremented by the elapsed time of every attempt made. -/
theorem loop_consume :
    ∀ (pre : List Attempt) (t : Option ℤ) (trace : List ℕ) (k : ℕ)
      (calls : List (Option ℤ)),
      (∀ a ∈ pre, isConnFailure a.outcome = true) →
      activeThrough t pre →
      ∀ rest, loop (pre ++ rest) t trace k calls =
        loop rest (decr t (sumElapsed pre)) (trace ++ errs pre)
          (k + pre.length) (calls ++ callPlan t pre)
  | [], t, trace, k, calls, _, _, rest => by
      simp [decr_zero, sumElapsed_nil, errs_nil, callPlan]
  | a :: pre, t, trace, k, calls, hconn, hact, rest => by
      obtain ⟨o, el⟩ := a
      have ha : isConnFailure o = true :=
        hconn ⟨o, el⟩ (List.mem_cons_self _ _)
      cases o with
      | success d => simp [isConnFailure] at ha
      | otherError e => simp [isConnFailure] at ha
      | connFailure e =>
          have hb : budgetActive t = true := activeThrough_head hact
          have ih := loop_consume pre (decr t el) (trace ++ [e]) (k + 1)
            (calls ++ [t]) (fun a ha => hconn a (by simp [ha]))
            (activeThrough_tail hact) rest
          rw [List.cons_append, loop_conn hb, ih]
          simp [sumElapsed_cons, decr_decr, errs_cons, errOf, callPlan]
          have hk : k + 1 + pre.length = k + (pre.length + 1) := by omega
          rw [hk]

theorem plan_succ (t : Option ℤ) (a : Attempt) (rest : List Attempt) (m : ℕ) :
    (List.range (m + 1)).map (fun i => decr t (sumElapsed ((a :: rest).take i))) =
      t :: (List.range m).map
        (fun i => decr (decr t a.elapsed) (sumElapsed (rest.take i))) := by
  rw [List.range_succ_eq_map, List.map_cons, List.map_map]
  congr 1
  · simp [decr_zero, sumElapsed_nil]
  · apply List.map_congr_left
    intro i _
    simp [Function.comp, List.take_succ_cons, sumElapsed_cons, decr_decr]

/-- Master characterization: every run consumes some number `m` of attempts
from the front of the script; the attempt count grows by `m`, the i-th attempt
is issued with `timeout=` equal to the budget decremented by all elapsed time
before it, and the final budget is the initial one decremented by the total
elapsed time of the attempts made. -/
theorem loop_master :
    ∀ (script : List Attempt) (t : Option ℤ) (trace : List ℕ) (k : ℕ)
      (calls : List (Option ℤ)),
      ∃ m, m ≤ script.length ∧
        (loop script t trace k calls).attempts = k + m ∧
        (loop script t trace k calls).calls =
          calls ++ (List.range m).map (fun i => decr t (sumElapsed (script.take i))) ∧
        (loop script t trace k calls).remaining = decr t (sumElapsed (script.take m))
  | [], t, trace, k, calls => by
      refine ⟨0, by simp, ?_⟩
      cases hb : budgetActive t <;>
        simp [loop, hb, decr_zero, sumElapsed_nil]
  | a :: rest, t, trace, k, calls => by
      cases hb : budgetActive t with
      | false =>
          refine ⟨0, by simp, ?_⟩
          simp [loop_not_active hb, decr_zero, sumElapsed_nil]
      | true =>
          obtain ⟨o, el⟩ := a
          cases o with
          | connFailure e =>
              obtain ⟨m, hm, hatt, hcalls, hrem⟩ :=
                loop_master rest (decr t el) (trace ++ [e]) (k + 1) (calls ++ [t])
              refine ⟨m + 1, by simp; omega, ?_, ?_, ?_⟩
              · rw [loop_conn hb, hatt]; omega
              · rw [loop_conn hb, hcalls, plan_succ]
                simp
              · rw [loop_conn hb, hrem]
                simp [List.take_succ_cons, sumElapsed_cons, decr_decr]
          | success d =>
              refine ⟨1, by simp, ?_, ?_, ?_⟩
              · rw [loop_success hb]
              · rw [loop_success hb]
                simp [decr_zero, sumElapsed_nil, List.range_succ]
              · rw [loop_success hb]
                simp [List.take_succ_cons, sumElapsed_cons, sumElapsed_nil]
          | otherError e =>
              refine ⟨1, by simp, ?_, ?_, ?_⟩
              · rw [loop_other hb]
              · rw [loop_other hb]
                simp [decr_zero, sumElapsed_nil, List.range_succ]
              · rw [loop_other hb]
                simp [List.take_succ_cons, sumElapsed_cons, sumElapsed_nil]

/-- With no timeout configured the loop can never raise `TimeoutError`. -/
theorem loop_none_not_timedOut :
    ∀ (script : List Attempt) (trace : List ℕ) (k : ℕ) (calls : List (Option ℤ))
      (tr : List ℕ),
      (loop script none trace k calls).outcome ≠ FinalOutcome.timedOut tr
  | [], trace, k, calls, tr => by
      simp [loop, budgetActive]
  | a :: rest, trace, k, calls, tr => by
      obtain ⟨o, el⟩ := a
      cases o with
      | connFailure e =>
          rw [loop_conn budgetActive_none]
          exact loop_none_not_timedOut rest _ _ _ tr
      | success d => rw [loop_success budgetActive_none]; simp
      | otherError e => rw [loop_other budgetActive_none]; simp

theorem errs_length_of_conn :
    ∀ (l : List Attempt), (∀ a ∈ l, isConnFailure a.outcome = true) →
      (errs l).length = l.length
  | [], _ => rfl
  | a :: l, h => by
      obtain ⟨o, el⟩ := a
      have ha : isConnFailure o = true := h ⟨o, el⟩ (List.mem_cons_self _ _)
      cases o with
      | success d => simp [isConnFailure] at ha
      | otherError e => simp [isConnFailure] at ha
      | connFailure e =>
          have ih := errs_length_of_conn l (fun a ha => h a (by simp [ha]))
          simp [errs_cons, errOf, ih]

/-- Timeout exhaustion: if every scripted attempt is a connection failure and
the total elapsed time covers the budget `T`, the loop ends by raising
`TimeoutError` after consuming exactly the shortest script segment whose
elapsed time reaches `T`; the trace gains the payload of every attempt made. -/
theorem loop_exhaust :
    ∀ (script : List Attempt) (T : ℤ) (trace : List ℕ) (k : ℕ)
      (calls : List (Option ℤ)),
      (∀ a ∈ script, isConnFailure a.outcome = true) →
      T ≤ sumElapsed script →
      ∃ n, n ≤ script.length ∧
        loop script (some T) trace k calls =
          ⟨FinalOutcome.timedOut (trace ++ errs (script.take n)), k + n,
            calls ++ callPlan (some T) (script.take n),
            some (T - sumElapsed (script.take n))⟩ ∧
        T ≤ sumElapsed (script.take n) ∧
        ∀ m < n, sumElapsed (script.take m) < T
  | [], T, trace, k, calls, _, hsum => by
      have hT : T ≤ 0 := by simpa [sumElapsed_nil] using hsum
      have hb : budgetActive (some T) = false := (budgetActive_some_false T).mpr hT
      refine ⟨0, by simp, ?_, by simpa [sumElapsed_nil], by omega⟩
      simp [loop_not_active hb, errs_nil, callPlan, sumElapsed_nil]
  | a :: rest, T, trace, k, calls, hconn, hsum => by
      by_cases hT : 0 < T
      case neg =>
          have hb : budgetActive (some T) = false :=
            (budgetActive_some_false T).mpr (le_of_not_lt hT)
          refine ⟨0, by simp, ?_, by simpa [sumElapsed_nil] using le_of_not_lt hT,
            by omega⟩
          simp [loop_not_active hb, errs_nil, callPlan, sumElapsed_nil]
      case pos =>
          have hb : budgetActive (some T) = true := (budgetActive_some T).mpr hT
          obtain ⟨o, el⟩ := a
          have ha : isConnFailure o = true := hconn ⟨o, el⟩ (List.mem_cons_self _ _)
          cases o with
          | success d => simp [isConnFailure] at ha
          | otherError e => simp [isConnFailure] at ha
          | connFailure e =>
              have hsum2 : T - el ≤ sumElapsed rest := by
                have := hsum
                rw [sumElapsed_cons] at this
                simp only at this ⊢
                linarith
              obtain ⟨n, hnlen, heq, hge, hlt⟩ :=
                loop_exhaust rest (T - el) (trace ++ [e]) (k + 1) (calls ++ [some T])
                  (fun a ha => hconn a (by simp [ha])) hsum2
              refine ⟨n + 1, by simp; omega, ?_, ?_, ?_⟩
              · rw [loop_conn hb]
                have hd : decr (some T) el = some (T - el) := rfl
                rw [hd, heq]
                simp [List.take_succ_cons, errs_cons, errOf, sumElapsed_cons, callPlan]
                constructor
                · omega
                · constructor
                  · rfl
                  · ring
              · rw [List.take_succ_cons, sumElapsed_cons]
                simp only at hge ⊢
                linarith
              · intro m hm
                cases m with
                | zero => simpa [sumElapsed_nil] using hT
                | succ m =>
                    have hm2 : m < n := by omega
                    have := hlt m hm2
                    rw [List.take_succ_cons, sumElapsed_cons]
                    simp only at this ⊢
                    linarith

/-- Modelled from the spec: per-node backoff state (spec §3, §4.2).  The
`Connection` and `Pool` classes (`connection.py`, `pool.py`) that own this
state are not part of the dispatcher source; the spec specifies a
consecutive-failure count and a timestamp before which the node is ineligible. -/
structure BackoffState where
  failureCount : ℕ
  blockedUntil : ℤ
deriving DecidableEq, Repr

/-- Modelled from the spec: `recordFailure(now)` of the BackoffTracker (spec
§4.2): `failureCount += 1; blockedUntil = now + min(maxBackoff, baseBackoff *
2^(failureCount - 1))` — after the increment, `failureCount - 1` is the old
count. -/
def recordFailure (base cap now : ℤ) (st : BackoffState) : BackoffState :=
  ⟨st.failureCount + 1, now + min cap (base * 2 ^ st.failureCount)⟩

/-- Modelled from the spec: `recordSuccess()` (spec §4.2): `failureCount = 0`;
the node becomes immediately eligible. -/
def recordSuccess (now : ℤ) (st : BackoffState) : BackoffState :=
  ⟨0, now⟩

/-- Modelled from the spec: `pool.reportOutcome(node, success, now)` (spec
§4.3) delegates to the node's BackoffTracker. -/
def reportOutcome (base cap : ℤ) (pool : List BackoffState) (node : ℕ)
    (success : Bool) (now : ℤ) : List BackoffState :=
  pool.set node
    (if success then recordSuccess now (pool.getD node ⟨0, 0⟩)
     else recordFailure base cap now (pool.getD node ⟨0, 0⟩))

/-- A scripted attempt for the pool-instrumented loop: the selected node's
index, the outcome, the elapsed time, and the wall-clock instant at which the
outcome is reported (`now` of `reportOutcome`). -/
structure PAttempt where
  node : ℕ
  outcome : Outcome
  elapsed : ℤ
  finish : ℤ
deriving DecidableEq, Repr

/-- Result of the pool-instrumented loop: the final outcome, attempt count,
final pool state and final budget. -/
structure PoolRunResult where
  outcome : FinalOutcome
  attempts : ℕ
  pool : List BackoffState
  remaining : Option ℤ
deriving DecidableEq, Repr

/-- The dispatch loop instrumented with the pool's backoff state.  The loop
itself is the one of `forward_request`; the `reportOutcome` calls on each
connection failure and on success are modelled from the spec (§4.4 steps d and
f), since the backoff bookkeeping lives in the `Connection`/`Pool`
collaborators whose source is not part of the dispatcher file. -/
def loopPool (base cap : ℤ) :
    List PAttempt → Option ℤ → List ℕ → ℕ → List BackoffState → PoolRunResult
  | [], t, trace, k, pool =>
      if budgetActive t then ⟨FinalOutcome.outOfScript trace, k, pool, t⟩
      else ⟨FinalOutcome.timedOut trace, k, pool, t⟩
  | a :: rest, t, trace, k, pool =>
      if budgetActive t then
        match a.outcome with
        | Outcome.connFailure e =>
            loopPool base cap rest (decr t a.elapsed) (trace ++ [e]) (k + 1)
              (reportOutcome base cap pool a.node false a.finish)
        | Outcome.success d =>
            ⟨FinalOutcome.returned d, k + 1,
              reportOutcome base cap pool a.node true a.finish, decr t a.elapsed⟩
        | Outcome.otherError e =>
            ⟨FinalOutcome.raised e, k + 1, pool, decr t a.elapsed⟩
      else ⟨FinalOutcome.timedOut trace, k, pool, t⟩

theorem getD_set_self :
    ∀ (l : List BackoffState) (n : ℕ) (x d : BackoffState), n < l.length →
      ((l.set n x).getD n d) = x
  | a :: l, 0, x, d, _ => rfl
  | a :: l, n + 1, x, d, h => by
      have ih := getD_set_self l n x d (by simpa using h)
      simpa using ih

-- Claim theorems.

/-- C3: with a configured timeout of 0, every call to `forward_request` makes
zero attempts — no node call is issued — and immediately raises `TimeoutError`
carrying an empty error trace. -/
theorem claimC3 (script : List Attempt) :
    forwardRequest (some 0) script =
      ⟨FinalOutcome.timedOut [], 0, [], some 0⟩ :=
  loop_not_active ((budgetActive_some_false 0).mpr le_rfl) script [] 0 []

/-- C8: within a bounded dispatch, once the remaining budget is ≤ 0 the guard
fails and no further attempt is ever made — the loop ends at once with
`TimeoutError` and the trace accumulated so far; the guard admits an attempt
exactly while the budget is strictly positive, or unbounded. -/
theorem claimC8 (v : ℤ) (script : List Attempt) (trace : List ℕ) (k : ℕ)
    (calls : List (Option ℤ)) (h : v ≤ 0) :
    loop script (some v) trace k calls =
      ⟨FinalOutcome.timedOut trace, k, calls, some v⟩ ∧
    (∀ u : ℤ, budgetActive (some u) = true ↔ 0 < u) ∧
    budgetActive none = true :=
  ⟨loop_not_active ((budgetActive_some_false v).mpr h) _ _ _ _,
    budgetActive_some, rfl⟩

theorem claimC8_witness :
    (-2 : ℤ) ≤ 0 ∧
    (loop [⟨Outcome.success 5, 1⟩] (some (-2)) [3] 4 [some 1] =
        ⟨FinalOutcome.timedOut [3], 4, [some 1], some (-2)⟩ ∧
      (∀ u : ℤ, budgetActive (some u) = true ↔ 0 < u) ∧
      budgetActive none = true) :=
  ⟨by decide, claimC8 (-2) [⟨Outcome.success 5, 1⟩] [3] 4 [some 1] (by decide)⟩

/-- C10: a negative configured timeout behaves exactly as timeout 0 — the
guard already fails at the first check, so `forward_request` makes zero
attempts and immediately raises `TimeoutError` with an empty trace. -/
theorem claimC10 (v : ℤ) (script : List Attempt) (h : v < 0) :
    forwardRequest (some v) script =
      ⟨FinalOutcome.timedOut [], 0, [], some v⟩ ∧
    (forwardRequest (some v) script).outcome =
      (forwardRequest (some 0) script).outcome ∧
    (forwardRequest (some v) script).attempts =
      (forwardRequest (some 0) script).attempts ∧
    (forwardRequest (some v) script).calls =
      (forwardRequest (some 0) script).calls := by
  have hv := loop_not_active ((budgetActive_some_false v).mpr (le_of_lt h))
    script [] 0 []
  have h0 := loop_not_active ((budgetActive_some_false 0).mpr le_rfl)
    script [] 0 []
  exact ⟨hv, by rw [forwardRequest, forwardRequest, hv, h0],
    by rw [forwardRequest, forwardRequest, hv, h0],
    by rw [forwardRequest, forwardRequest, hv, h0]⟩

theorem claimC10_witness :
    (-1 : ℤ) < 0 ∧
    (forwardRequest (some (-1)) [⟨Outcome.success 2, 1⟩] =
        ⟨FinalOutcome.timedOut [], 0, [], some (-1)⟩ ∧
      (forwardRequest (some (-1)) [⟨Outcome.success 2, 1⟩]).outcome =
        (forwardRequest (some 0) [⟨Outcome.success 2, 1⟩]).outcome ∧
      (forwardRequest (some (-1)) [⟨Outcome.success 2, 1⟩]).attempts =
        (forwardRequest (some 0) [⟨Outcome.success 2, 1⟩]).attempts ∧
      (forwardRequest (some (-1)) [⟨Outcome.success 2, 1⟩]).calls =
        (forwardRequest (some 0) [⟨Outcome.success 2, 1⟩]).calls) :=
  ⟨by decide, claimC10 (-1) [⟨Outcome.success 2, 1⟩] (by decide)⟩

/-- C1: in a bounded dispatch (timeout `T`) in which every attempt fails with
a ConnectionFailure, `forward_request` raises `TimeoutError` exactly once the
cumulative elapsed attempt time reaches or exceeds `T` (every earlier partial
sum is still below `T`), and the `TimeoutError` carries the ordered list of
every ConnectionFailure encountered, whose length equals the number of
attempts made. -/
theorem claimC1 (T : ℤ) (script : List Attempt)
    (hconn : ∀ a ∈ script, isConnFailure a.outcome = true)
    (hsum : T ≤ sumElapsed script) :
    (forwardRequest (some T) script).outcome =
      FinalOutcome.timedOut
        (errs (script.take (forwardRequest (some T) script).attempts)) ∧
    (errs (script.take (forwardRequest (some T) script).attempts)).length =
      (forwardRequest (some T) script).attempts ∧
    T ≤ sumElapsed (script.take (forwardRequest (some T) script).attempts) ∧
    ∀ m < (forwardRequest (some T) script).attempts,
      sumElapsed (script.take m) < T := by
  obtain ⟨n, hnlen, heq, hge, hlt⟩ := loop_exhaust script T [] 0 [] hconn hsum
  have hres : forwardRequest (some T) script =
      ⟨FinalOutcome.timedOut (errs (script.take n)), n,
        callPlan (some T) (script.take n),
        some (T - sumElapsed (script.take n))⟩ := by
    rw [forwardRequest, heq]; simp
  have hatt : (forwardRequest (some T) script).attempts = n := by rw [hres]
  rw [hatt, hres]
  refine ⟨rfl, ?_, hge, hlt⟩
  have hlen : (script.take n).length = n := by
    simp [List.length_take]; omega
  rw [errs_length_of_conn (script.take n)
    (fun a ha => hconn a (List.take_subset n script ha)), hlen]

theorem claimC1_witness :
    (∀ a ∈ [(⟨Outcome.connFailure 7, 1⟩ : Attempt),
        ⟨Outcome.connFailure 8, 2⟩], isConnFailure a.outcome = true) ∧
    (3 : ℤ) ≤ sumElapsed [⟨Outcome.connFailure 7, 1⟩, ⟨Outcome.connFailure 8, 2⟩] ∧
    ((forwardRequest (some 3)
        [⟨Outcome.connFailure 7, 1⟩, ⟨Outcome.connFailure 8, 2⟩]).outcome =
      FinalOutcome.timedOut
        (errs (List.take (forwardRequest (some 3)
            [⟨Outcome.connFailure 7, 1⟩, ⟨Outcome.connFailure 8, 2⟩]).attempts
          [⟨Outcome.connFailure 7, 1⟩, ⟨Outcome.connFailure 8, 2⟩])) ∧
    (errs (List.take (forwardRequest (some 3)
        [⟨Outcome.connFailure 7, 1⟩, ⟨Outcome.connFailure 8, 2⟩]).attempts
        [⟨Outcome.connFailure 7, 1⟩, ⟨Outcome.connFailure 8, 2⟩])).length =
      (forwardRequest (some 3)
        [⟨Outcome.connFailure 7, 1⟩, ⟨Outcome.connFailure 8, 2⟩]).attempts ∧
    (3 : ℤ) ≤ sumElapsed (List.take (forwardRequest (some 3)
        [⟨Outcome.connFailure 7, 1⟩, ⟨Outcome.connFailure 8, 2⟩]).attempts
        [⟨Outcome.connFailure 7, 1⟩, ⟨Outcome.connFailure 8, 2⟩]) ∧
    ∀ m < (forwardRequest (some 3)
        [⟨Outcome.connFailure 7, 1⟩, ⟨Outcome.connFailure 8, 2⟩]).attempts,
      sumElapsed (List.take m
        [⟨Outcome.connFailure 7, 1⟩, ⟨Outcome.connFailure 8, 2⟩]) < 3) :=
  ⟨by decide, by decide,
    claimC1 3 [⟨Outcome.connFailure 7, 1⟩, ⟨Outcome.connFailure 8, 2⟩]
      (by decide) (by decide)⟩

/-- C2: budget accounting is unconditional — whatever each attempt's outcome
(success, connection failure, or any other error), the final value of the
budget of a bounded dispatch equals the configured timeout minus the total
elapsed wall-clock time of every attempt made. -/
theorem claimC2 (T : ℤ) (script : List Attempt) :
    (forwardRequest (some T) script).remaining =
      some (T - sumElapsed
        (script.take (forwardRequest (some T) script).attempts)) := by
  obtain ⟨m, _, hatt, _, hrem⟩ := loop_master script (some T) [] 0 []
  rw [forwardRequest, hrem, hatt]
  simp [decr]

/-- C9: the per-attempt timeout passed to each node call equals the entire
remaining budget at the start of that attempt (the configured timeout minus
all elapsed time so far), never a fixed slice; when the dispatch is unbounded,
every call is issued with no per-attempt timeout. -/
theorem claimC9 (t : Option ℤ) (script : List Attempt) :
    (forwardRequest t script).calls =
      (List.range (forwardRequest t script).attempts).map
        (fun i => decr t (sumElapsed (script.take i))) ∧
    (t = none →
      (forwardRequest t script).calls =
        List.replicate (forwardRequest t script).attempts none) := by
  obtain ⟨m, _, hatt, hcalls, _⟩ := loop_master script t [] 0 []
  constructor
  · rw [forwardRequest, hcalls, hatt]; simp
  · intro ht
    subst ht
    rw [forwardRequest, hcalls, hatt]
    have hnone : ∀ i : ℕ, decr none (sumElapsed (script.take i)) = none :=
      fun i => rfl
    simp [hnone]

theorem claimC9_witness :
    (forwardRequest none [⟨Outcome.connFailure 4, 2⟩, ⟨Outcome.success 6, 1⟩]).calls =
      (List.range (forwardRequest none
          [⟨Outcome.connFailure 4, 2⟩, ⟨Outcome.success 6, 1⟩]).attempts).map
        (fun i => decr none (sumElapsed (List.take i
          [⟨Outcome.connFailure 4, 2⟩, ⟨Outcome.success 6, 1⟩]))) ∧
    (none = (none : Option ℤ) →
      (forwardRequest none
          [⟨Outcome.connFailure 4, 2⟩, ⟨Outcome.success 6, 1⟩]).calls =
        List.replicate (forwardRequest none
          [⟨Outcome.connFailure 4, 2⟩, ⟨Outcome.success 6, 1⟩]).attempts none) :=
  claimC9 none [⟨Outcome.connFailure 4, 2⟩, ⟨Outcome.success 6, 1⟩]

/-- C4: when an attempt fails with anything other than a ConnectionError, the
error propagates unchanged after exactly that one attempt — whatever budget
remains and whatever the script holds afterwards, no further attempt is made,
and the error is not recorded in the trace (the dispatch ends `raised`, not
`timedOut`). -/
theorem claimC4 (t : Option ℤ) (pre post : List Attempt) (e : ℕ) (el : ℤ)
    (hconn : ∀ a ∈ pre, isConnFailure a.outcome = true)
    (hact : activeThrough t pre) :
    forwardRequest t (pre ++ ⟨Outcome.otherError e, el⟩ :: post) =
      ⟨FinalOutcome.raised e, pre.length + 1,
        callPlan t pre ++ [decr t (sumElapsed pre)],
        decr (decr t (sumElapsed pre)) el⟩ ∧
    forwardRequest t (pre ++ ⟨Outcome.otherError e, el⟩ :: post) =
      forwardRequest t (pre ++ [⟨Outcome.otherError e, el⟩]) := by
  have key : ∀ rest2, loop (pre ++ ⟨Outcome.otherError e, el⟩ :: rest2) t [] 0 [] =
      ⟨FinalOutcome.raised e, pre.length + 1,
        callPlan t pre ++ [decr t (sumElapsed pre)],
        decr (decr t (sumElapsed pre)) el⟩ := by
    intro rest2
    rw [loop_consume pre t [] 0 [] hconn hact,
      loop_other (activeThrough_last hact)]
    simp
  exact ⟨key post, by rw [forwardRequest, forwardRequest, key post, key []]⟩

theorem claimC4_witness :
    (∀ a ∈ [(⟨Outcome.connFailure 3, 1⟩ : Attempt)], isConnFailure a.outcome = true) ∧
    activeThrough (some 10) [⟨Outcome.connFailure 3, 1⟩] ∧
    (forwardRequest (some 10)
        ([⟨Outcome.connFailure 3, 1⟩] ++ ⟨Outcome.otherError 5, 2⟩ ::
          [⟨Outcome.success 9, 1⟩]) =
      ⟨FinalOutcome.raised 5, [(⟨Outcome.connFailure 3, 1⟩ : Attempt)].length + 1,
        callPlan (some 10) [⟨Outcome.connFailure 3, 1⟩] ++
          [decr (some 10) (sumElapsed [⟨Outcome.connFailure 3, 1⟩])],
        decr (decr (some 10) (sumElapsed [⟨Outcome.connFailure 3, 1⟩])) 2⟩ ∧
    forwardRequest (some 10)
        ([⟨Outcome.connFailure 3, 1⟩] ++ ⟨Outcome.otherError 5, 2⟩ ::
          [⟨Outcome.success 9, 1⟩]) =
      forwardRequest (some 10)
        ([⟨Outcome.connFailure 3, 1⟩] ++ [⟨Outcome.otherError 5, 2⟩])) :=
  ⟨by decide, by decide,
    claimC4 (some 10) [⟨Outcome.connFailure 3, 1⟩] [⟨Outcome.success 9, 1⟩] 5 2
      (by decide) (by decide)⟩

/-- C5: with no timeout configured, `forward_request` never raises
`TimeoutError`; for any finite run of connection failures followed by a
success, it retries through every failure and returns the success. -/
theorem claimC5 (pre post : List Attempt) (d : ℕ) (el : ℤ)
    (hconn : ∀ a ∈ pre, isConnFailure a.outcome = true) :
    (∀ (s : List Attempt) (tr : List ℕ),
      (forwardRequest none s).outcome ≠ FinalOutcome.timedOut tr) ∧
    (forwardRequest none (pre ++ ⟨Outcome.success d, el⟩ :: post)).outcome =
      FinalOutcome.returned d ∧
    (forwardRequest none (pre ++ ⟨Outcome.success d, el⟩ :: post)).attempts =
      pre.length + 1 := by
  have key : loop (pre ++ ⟨Outcome.success d, el⟩ :: post) none [] 0 [] =
      ⟨FinalOutcome.returned d, pre.length + 1,
        callPlan none pre ++ [decr none (sumElapsed pre)],
        decr (decr none (sumElapsed pre)) el⟩ := by
    rw [loop_consume pre none [] 0 [] hconn (activeThrough_none pre),
      loop_success (activeThrough_last (activeThrough_none pre))]
    simp
  refine ⟨fun s tr => loop_none_not_timedOut s [] 0 [] tr, ?_, ?_⟩ <;>
    rw [forwardRequest, key]

theorem claimC5_witness :
    (∀ a ∈ [(⟨Outcome.connFailure 3, 1⟩ : Attempt)], isConnFailure a.outcome = true) ∧
    ((∀ (s : List Attempt) (tr : List ℕ),
      (forwardRequest none s).outcome ≠ FinalOutcome.timedOut tr) ∧
    (forwardRequest none
        ([⟨Outcome.connFailure 3, 1⟩] ++ ⟨Outcome.success 9, 2⟩ :: [])).outcome =
      FinalOutcome.returned 9 ∧
    (forwardRequest none
        ([⟨Outcome.connFailure 3, 1⟩] ++ ⟨Outcome.success 9, 2⟩ :: [])).attempts =
      [(⟨Outcome.connFailure 3, 1⟩ : Attempt)].length + 1) :=
  ⟨by decide, claimC5 [⟨Outcome.connFailure 3, 1⟩] [] 9 2 (by decide)⟩

/-- C6: a successful attempt returns its decoded payload immediately and no
further attempt is made — after a run of connection failures, a success ends
the dispatch right there, independently of anything scripted afterwards; with
no preceding failures, exactly one attempt is made. -/
theorem claimC6 (t : Option ℤ) (pre post : List Attempt) (d : ℕ) (el : ℤ)
    (hconn : ∀ a ∈ pre, isConnFailure a.outcome = true)
    (hact : activeThrough t pre) :
    (forwardRequest t (pre ++ ⟨Outcome.success d, el⟩ :: post)).outcome =
      FinalOutcome.returned d ∧
    (forwardRequest t (pre ++ ⟨Outcome.success d, el⟩ :: post)).attempts =
      pre.length + 1 ∧
    forwardRequest t (pre ++ ⟨Outcome.success d, el⟩ :: post) =
      forwardRequest t (pre ++ [⟨Outcome.success d, el⟩]) := by
  have key : ∀ rest2, loop (pre ++ ⟨Outcome.success d, el⟩ :: rest2) t [] 0 [] =
      ⟨FinalOutcome.returned d, pre.length + 1,
        callPlan t pre ++ [decr t (sumElapsed pre)],
        decr (decr t (sumElapsed pre)) el⟩ := by
    intro rest2
    rw [loop_consume pre t [] 0 [] hconn hact,
      loop_success (activeThrough_last hact)]
    simp
  refine ⟨?_, ?_, ?_⟩
  · rw [forwardRequest, key post]
  · rw [forwardRequest, key post]
  · rw [forwardRequest, forwardRequest, key post, key []]

theorem claimC6_witness :
    (∀ a ∈ ([] : List Attempt), isConnFailure a.outcome = true) ∧
    activeThrough (some 5) [] ∧
    ((forwardRequest (some 5) ([] ++ ⟨Outcome.success 9, 1⟩ ::
        [⟨Outcome.success 1, 1⟩])).outcome = FinalOutcome.returned 9 ∧
    (forwardRequest (some 5) ([] ++ ⟨Outcome.success 9, 1⟩ ::
        [⟨Outcome.success 1, 1⟩])).attempts = List.length ([] : List Attempt) + 1 ∧
    forwardRequest (some 5) ([] ++ ⟨Outcome.success 9, 1⟩ ::
        [⟨Outcome.success 1, 1⟩]) =
      forwardRequest (some 5) ([] ++ [⟨Outcome.success 9, 1⟩])) :=
  ⟨by decide, by decide,
    claimC6 (some 5) [] [⟨Outcome.success 1, 1⟩] 9 1 (by decide) (by decide)⟩

/-- C7: on every ConnectionError the dispatcher appends the error to the
trace, reports the failure so the selected node's backoff state is updated
(failure count incremented, blocked-until pushed to `now + min(cap, base *
2^oldCount)`), and continues the retry loop — the step neither returns nor
raises, it recurses on the rest of the script. -/
theorem claimC7 (base cap : ℤ) (t : Option ℤ) (node e : ℕ) (el fin : ℤ)
    (rest : List PAttempt) (trace : List ℕ) (k : ℕ) (pool : List BackoffState)
    (hb : budgetActive t = true) (hn : node < pool.length) :
    loopPool base cap (⟨node, Outcome.connFailure e, el, fin⟩ :: rest) t trace k pool =
      loopPool base cap rest (decr t el) (trace ++ [e]) (k + 1)
        (reportOutcome base cap pool node false fin) ∧
    ((reportOutcome base cap pool node false fin).getD node ⟨0, 0⟩).failureCount =
      (pool.getD node ⟨0, 0⟩).failureCount + 1 ∧
    ((reportOutcome base cap pool node false fin).getD node ⟨0, 0⟩).blockedUntil =
      fin + min cap (base * 2 ^ (pool.getD node ⟨0, 0⟩).failureCount) := by
  have hset : (reportOutcome base cap pool node false fin).getD node ⟨0, 0⟩ =
      recordFailure base cap fin (pool.getD node ⟨0, 0⟩) := by
    rw [reportOutcome]
    simp only [Bool.false_eq_true, if_false]
    exact getD_set_self pool node _ _ hn
  exact ⟨by simp [loopPool, hb], by rw [hset]; rfl, by rw [hset]; rfl⟩

theorem claimC7_witness :
    budgetActive (some 5) = true ∧
    0 < [(⟨2, 3⟩ : BackoffState)].length ∧
    (loopPool 1 60 [⟨0, Outcome.connFailure 4, 1, 10⟩] (some 5) [] 0
        [(⟨2, 3⟩ : BackoffState)] =
      loopPool 1 60 [] (decr (some 5) 1) ([] ++ [4]) (0 + 1)
        (reportOutcome 1 60 [(⟨2, 3⟩ : BackoffState)] 0 false 10) ∧
    ((reportOutcome 1 60 [(⟨2, 3⟩ : BackoffState)] 0 false 10).getD 0
        ⟨0, 0⟩).failureCount =
      (([(⟨2, 3⟩ : BackoffState)]).getD 0 ⟨0, 0⟩).failureCount + 1 ∧
    ((reportOutcome 1 60 [(⟨2, 3⟩ : BackoffState)] 0 false 10).getD 0
        ⟨0, 0⟩).blockedUntil =
      10 + min 60 (1 * 2 ^ (([(⟨2, 3⟩ : BackoffState)]).getD 0 ⟨0, 0⟩).failureCount)) :=
  ⟨by decide, by decide,
    claimC7 1 60 (some 5) 0 4 1 10 [] [] 0 [⟨2, 3⟩] (by decide) (by decide)⟩
